import Mathlib

/-!
Verification of the StableLens server core (scoring, alerting, caching,
retrying, and the price adapter) against its design document.

The JavaScript source is shallowly embedded: JS numbers are modelled as
rationals (`ℚ`), JS `null`/`undefined` as `Option`, thrown exceptions as
`Except`, and the case-insensitive substring regexes of the source as
executable character-list matchers (the source data is ASCII, so ASCII
case folding is faithful).
-/

namespace StableLens

/-- ASCII lower-casing of a character, mirroring `String.prototype.toLowerCase`
on the ASCII data that appears in the program. -/
def lowChar (c : Char) : Char :=
  if c.toNat ≥ 65 ∧ c.toNat ≤ 90 then Char.ofNat (c.toNat + 32) else c

/-- ASCII upper-casing of a character, mirroring `String.prototype.toUpperCase`. -/
def upChar (c : Char) : Char :=
  if c.toNat ≥ 97 ∧ c.toNat ≤ 122 then Char.ofNat (c.toNat - 32) else c

/-- `s.toLowerCase()` on ASCII strings. -/
def lowerStr (s : String) : String := ⟨s.data.map lowChar⟩

/-- `s.toUpperCase()` on ASCII strings. -/
def upperStr (s : String) : String := ⟨s.data.map upChar⟩

/-- Does the pattern occur at the head of the text? -/
def startsL : List Char → List Char → Bool
  | [], _ => true
  | _ :: _, [] => false
  | p :: ps, c :: cs => p == c && startsL ps cs

/-- Does the pattern occur anywhere in the text?  This is the semantics of a
JS alternation-free regex test and of `String.prototype.includes`. -/
def hasSubL (pat : List Char) : List Char → Bool
  | [] => startsL pat []
  | c :: rest => startsL pat (c :: rest) || hasSubL pat rest

/-- `s.includes(pat)` / an unanchored literal regex test. -/
def strHasSub (s pat : String) : Bool := hasSubL pat.data s.data

/-- A `\s` whitespace character (the ASCII portion, which is all the data uses). -/
def wsChar (c : Char) : Bool :=
  c == ' ' || c == '\t' || c == '\n' || c == '\r' || c == '\x0b' || c == '\x0c'

/-- After having read `us`, skip `\s*` and require the literal `(msb`.
Tail of the `US\s*\(MSB` alternative of the jurisdiction regex. -/
def usMsbTail : List Char → Bool
  | [] => false
  | c :: rest => if wsChar c then usMsbTail rest else startsL "(msb".data (c :: rest)

/-- Does `NYDFS|US\s*\(MSB` (case-insensitively, here on pre-lowered text)
match starting at the head? -/
def jurisHitAt : List Char → Bool
  | 'n' :: 'y' :: 'd' :: 'f' :: 's' :: _ => true
  | 'u' :: 's' :: rest => usMsbTail rest
  | _ => false

/-- Unanchored scan for the jurisdiction regex on lowered text. -/
def jurisHit : List Char → Bool
  | [] => false
  | c :: rest => jurisHitAt (c :: rest) || jurisHit rest

/-- `/(NYDFS|US\s*\(MSB)/i.test(s)` from `scoreStablecoin` / `scoreBreakdown`. -/
def jurisTest (s : String) : Bool := jurisHit (lowerStr s).data

/-- `jurisdictionToKey` from the source: upper-case the jurisdiction string. -/
def jurisdictionToKey (s : String) : String := upperStr s

/-- `/OFFSHORE|DECENTRALIZED/i.test(jurisdictionToKey(s))`. -/
def offshoreTest (s : String) : Bool :=
  strHasSub (jurisdictionToKey s) "OFFSHORE" || strHasSub (jurisdictionToKey s) "DECENTRALIZED"

/-- `Math.max` on rationals (kernel-computable, unlike the lattice `max`). -/
def qmax (a b : ℚ) : ℚ := if a ≤ b then b else a

/-- `Math.min` on rationals (kernel-computable, unlike the lattice `min`). -/
def qmin (a b : ℚ) : ℚ := if a ≤ b then a else b

/-- `Math.round` (round half toward positive infinity) on the rational model. -/
def jsRound (q : ℚ) : ℤ := ⌊q + 1/2⌋

/-- `clamp10(n) = Math.max(1, Math.min(10, Math.round(n*10)/10))`. -/
def clamp10 (n : ℚ) : ℚ := qmax 1 (qmin 10 ((jsRound (n * 10) : ℚ) / 10))

/-- A row of the `SEEDED_STABLES` registry (and any record fed to the
stablecoin scorers).  Absent JS fields default to `""`/`[]`, matching the
`|| ""` guards in the source. -/
structure Stablecoin where
  symbol : String := ""
  name : String := ""
  issuer : String := ""
  jurisdiction : String := ""
  auditor : String := ""
  model : String := ""
  genius : String := ""
  chains : List String := []
deriving DecidableEq

/-- `scoreStablecoin(sc, depegIncidents)` from the source: base 5 plus the
rule adjustments, clamped.  Note the three auditor bonuses are independent
`if` statements, so several can fire at once. -/
def scoreStablecoin (sc : Stablecoin) (depegIncidents : ℕ) : ℚ :=
  clamp10 (5
    + (if jurisTest sc.jurisdiction then 2 else 0)
    + (if strHasSub (lowerStr sc.auditor) "grant thornton" then 1 else 0)
    + (if strHasSub (lowerStr sc.auditor) "withum" then 8/10 else 0)
    + (if strHasSub (lowerStr sc.auditor) "bdo" then 3/10 else 0)
    + (if sc.model = "crypto-collateralized" then -(8/10) else 0)
    + (if offshoreTest sc.jurisdiction then -(7/10) else 0)
    + (if lowerStr sc.genius = "yes" ∨ lowerStr sc.genius = "likely" then 15/10 else 0)
    - qmin 2 ((depegIncidents : ℚ) * (7/10)))

/-- The `parts` object produced by `scoreBreakdown`. -/
structure SCParts where
  base : ℚ
  jurisdiction : ℚ
  auditor : ℚ
  model : ℚ
  offshore : ℚ
  genius : ℚ
  depeg : ℚ
deriving DecidableEq

/-- `Object.values(parts).reduce((a,b)=>a+b,0)` for the stablecoin parts. -/
def SCParts.total (p : SCParts) : ℚ :=
  p.base + p.jurisdiction + p.auditor + p.model + p.offshore + p.genius + p.depeg

/-- Result shape of the two breakdown scorers. -/
structure BreakdownResult (π : Type) where
  parts : π
  total : ℚ
deriving DecidableEq

/-- `scoreBreakdown(sc, depegIncidents)` from the source.  The auditor part is
a chained conditional (first matching auditor only) and the genius part is an
unanchored `/yes|likely/` substring match. -/
def scoreBreakdown (sc : Stablecoin) (depegIncidents : ℕ) : BreakdownResult SCParts :=
  let parts : SCParts :=
    { base := 5
      jurisdiction := if jurisTest sc.jurisdiction then 2 else 0
      auditor :=
        if strHasSub (lowerStr sc.auditor) "grant thornton" then 1
        else if strHasSub (lowerStr sc.auditor) "withum" then 8/10
        else if strHasSub (lowerStr sc.auditor) "bdo" then 3/10
        else 0
      model := if sc.model = "crypto-collateralized" then -(8/10) else 0
      offshore := if offshoreTest sc.jurisdiction then -(7/10) else 0
      genius :=
        if strHasSub (lowerStr sc.genius) "yes" || strHasSub (lowerStr sc.genius) "likely"
        then 15/10 else 0
      depeg := -(qmin 2 ((depegIncidents : ℚ) * (7/10))) }
  ⟨parts, clamp10 parts.total⟩

/-- A row of `SEEDED_PLATFORMS` (CeFi or DeFi).  `scoreBase := none` models an
absent field; the scorers apply the `|| 6.5` default to both an absent field
and a (falsy) zero. -/
structure Platform where
  name : String := ""
  jurisdiction : String := ""
  licenses : List String := []
  auditor : String := ""
  por : String := ""
  insured : Bool := false
  riskNotes : String := ""
  scoreBase : Option ℚ := none
  chain : String := ""
  audits : List String := []
deriving DecidableEq

/-- `p.scoreBase || 6.5` (JS `||`: an absent field or a zero both yield 6.5). -/
def Platform.base (p : Platform) : ℚ :=
  match p.scoreBase with
  | some b => if b = 0 then 13/2 else b
  | none => 13/2

/-- `(p.licenses || []).some(x => /NYDFS|TRUST|MSB|VASP/i.test(x))`. -/
def licenseTest (p : Platform) : Bool :=
  p.licenses.any fun x =>
    strHasSub (upperStr x) "NYDFS" || strHasSub (upperStr x) "TRUST" ||
    strHasSub (upperStr x) "MSB" || strHasSub (upperStr x) "VASP"

/-- `scorePlatform(p)` from the source.  There is no proof-of-reserves bonus
here, only a `-0.3` penalty when `por` contains `"partial"`. -/
def scorePlatform (p : Platform) : ℚ :=
  clamp10 (p.base
    + (if licenseTest p then 6/10 else 0)
    + (if strHasSub (lowerStr p.auditor) "deloitte" then 3/10 else 0)
    + (if strHasSub (lowerStr p.por) "partial" then -(3/10) else 0)
    + (if strHasSub (lowerStr p.riskNotes) "regulatory action" then -(8/10) else 0))

/-- The `parts` object produced by `platformBreakdown`. -/
structure PlatformParts where
  base : ℚ
  licenses : ℚ
  auditor : ℚ
  por : ℚ
  risk : ℚ
deriving DecidableEq

/-- `Object.values(parts).reduce((a,b)=>a+b,0)` for the platform parts. -/
def PlatformParts.total (p : PlatformParts) : ℚ :=
  p.base + p.licenses + p.auditor + p.por + p.risk

/-- `platformBreakdown(p)` from the source.  Unlike `scorePlatform`, the por
part grants `+0.4` when `por` contains `"yes"` and only `-0.2` (not `-0.3`)
when it contains `"partial"`. -/
def platformBreakdown (p : Platform) : BreakdownResult PlatformParts :=
  let parts : PlatformParts :=
    { base := p.base
      licenses := if licenseTest p then 6/10 else 0
      auditor := if strHasSub (lowerStr p.auditor) "deloitte" then 3/10 else 0
      por :=
        if strHasSub (lowerStr p.por) "yes" then 4/10
        else if strHasSub (lowerStr p.por) "partial" then -(2/10)
        else 0
      risk := if strHasSub (lowerStr p.riskNotes) "regulatory action" then -(8/10) else 0 }
  ⟨parts, clamp10 parts.total⟩

/-- The seeded `Coinbase` CeFi platform record from `SEEDED_PLATFORMS.cefi`. -/
def coinbaseSeed : Platform :=
  { name := "Coinbase"
    jurisdiction := "US (NYDFS/FinCEN MSB)"
    licenses := ["NY BitLicense", "MSB"]
    auditor := "Deloitte"
    por := "Yes (independent attestations)"
    insured := false
    riskNotes := "High regulatory transparency in US"
    scoreBase := some (88/10) }

/-- The seeded `USDC` stablecoin record from `SEEDED_STABLES`. -/
def usdcSeed : Stablecoin :=
  { symbol := "USDC"
    name := "USD Coin"
    issuer := "Circle"
    jurisdiction := "US (MSB) / EU EMI"
    auditor := "Grant Thornton"
    model := "fiat-backed"
    genius := "yes"
    chains := ["Ethereum", "Base", "Solana", "Arbitrum", "Polygon"] }

/-- `Math.abs` on the rational model. -/
def jsAbs (q : ℚ) : ℚ := if q < 0 then -q else q

/-- An entry of the `withCache` map: `{ v, t }` with `t` the timestamp written
by the last successful producer call. -/
structure CacheEntry (α : Type) where
  v : α
  t : ℤ

/-- Observable outcome of one `withCache(key, ttlMs, fetcher)` call for a key:
the value returned (or the exception propagated), the entry stored for the key
afterwards, and whether the `fetcher` producer was invoked. -/
structure CacheOutcome (α ε : Type) where
  result : Except ε α
  entry : Option (CacheEntry α)
  producerCalled : Bool

/-- `withCache` from the source, for a single key.  `entry` is the current
stored entry for the key (`none` when the key is absent), `now` the clock
reading, and `producer` the outcome the producer would have if invoked. -/
def withCache {α ε : Type} (entry : Option (CacheEntry α)) (now ttlMs : ℤ)
    (producer : Except ε α) : CacheOutcome α ε :=
  match entry with
  | some e =>
    if now - e.t < ttlMs then ⟨.ok e.v, some e, false⟩
    else
      match producer with
      | .ok v => ⟨.ok v, some ⟨v, now⟩, true⟩
      | .error _ => ⟨.ok e.v, some e, true⟩
  | none =>
    match producer with
    | .ok v => ⟨.ok v, some ⟨v, now⟩, true⟩
    | .error err => ⟨.error err, none, true⟩

/-- Loop of `fetchWithRetry`: `i` is the index of the next underlying `fetch`
call, `fuel` the remaining attempts, `lastErr` the last error seen so far
(`none` before any attempt, matching the `undefined` initial `lastErr`).
Returns the overall outcome together with the number of `fetch` calls made. -/
def fetchGo {ε ρ : Type} (responses : ℕ → Except ε ρ) :
    ℕ → ℕ → Option ε → Except (Option ε) ρ × ℕ
  | _, 0, lastErr => (.error lastErr, 0)
  | i, fuel + 1, _ =>
    match responses i with
    | .ok r => (.ok r, 1)
    | .error e =>
      let p := fetchGo responses (i + 1) fuel (some e)
      (p.1, p.2 + 1)

/-- `fetchWithRetry(url, opts, attempts, backoffMs)` from the source, with the
environment abstracted as `responses i`: the outcome of the `i`-th underlying
`fetch` call (`.ok` for a 2xx response, `.error` for a network/timeout failure
or a non-ok status, both of which the loop catches). -/
def fetchWithRetry {ε ρ : Type} (responses : ℕ → Except ε ρ) (attempts : ℕ) :
    Except (Option ε) ρ × ℕ :=
  fetchGo responses 0 attempts none

/-- A stablecoin row as seen by `buildAlerts`: the fields it reads. -/
structure PricedCoin where
  symbol : String := ""
  price : Option ℚ := none
deriving DecidableEq

/-- A news item as seen by `buildAlerts`: the fields it reads. -/
structure NewsItem where
  source : String := ""
  title : String := ""
  link : String := ""
deriving DecidableEq

/-- An alert pushed by `buildAlerts` (the two shapes it creates). -/
inductive Alert where
  | depeg (severity symbol message : String)
  | regulatory (severity source message link : String)
deriving DecidableEq

/-- The depeg branch of `buildAlerts` for one stablecoin row. -/
def depegAlert (s : PricedCoin) : Option Alert :=
  match s.price with
  | none => none
  | some p =>
    let diff := jsAbs (1 - p)
    if diff ≥ 15/1000 then
      some (.depeg (if diff ≥ 5/100 then "high" else "medium") s.symbol
        (s.symbol ++ " deviated " ++ toString (jsRound (diff * 100)) ++ "% from $1"))
    else none

/-- `/enforcement|settlement|charge|lawsuit|penalty|consent order/.test(t)`. -/
def enfTest (t : String) : Bool :=
  strHasSub t "enforcement" || strHasSub t "settlement" || strHasSub t "charge" ||
  strHasSub t "lawsuit" || strHasSub t "penalty" || strHasSub t "consent order"

/-- `/(sec|cftc|doj|attorney general)/.test(t)` — an unanchored substring
alternation, with no word boundaries. -/
def regulatorTest (t : String) : Bool :=
  strHasSub t "sec" || strHasSub t "cftc" || strHasSub t "doj" ||
  strHasSub t "attorney general"

/-- The regulatory branch of `buildAlerts` for one news item. -/
def regAlert (n : NewsItem) : Option Alert :=
  let t := lowerStr n.title
  if enfTest t && regulatorTest t then
    some (.regulatory "info" n.source n.title n.link)
  else none

/-- `buildAlerts({stablecoins, news})` from the source: the depeg pass over
the stablecoin rows, then the regulatory pass over the news items, then
`alerts.slice(0, 50)`. -/
def buildAlerts (stablecoins : List PricedCoin) (news : List NewsItem) : List Alert :=
  (stablecoins.filterMap depegAlert ++ news.filterMap regAlert).take 50

/-- A value of the primary price source's `coins` map: `{ price, confidence }`
with `none` standing for an absent or non-numeric field. -/
structure CoinEntry where
  price : Option ℚ := none
  confidence : Option ℚ := none
deriving DecidableEq

/-- JS object lookup `m[k]` on an association-list model of an object. -/
def objGet {β : Type} (m : List (String × β)) (k : String) : Option β :=
  (m.find? fun e => e.1 == k).map (·.2)

/-- The per-symbol normalization of the `llama` primary source in the
`/api/prices` producer: `coins[key] || coins[key.toLowerCase()] || null`, then
`price`/`confidence` kept only when numeric. -/
def llamaNormalize (cg : List (String × String)) (coins : List (String × CoinEntry)) :
    List (String × CoinEntry) :=
  cg.map fun p =>
    let key := "coingecko:" ++ p.2
    let v := match objGet coins key with
             | some e => some e
             | none => objGet coins (lowerStr key)
    match v with
    | some e => (p.1, { price := e.price, confidence := e.confidence })
    | none => (p.1, { price := none, confidence := none })

/-- The per-symbol normalization of the `coingeckoFallback` secondary source:
`out?.[id]?.usd`, kept only when numeric, with `confidence: null`. -/
def cgNormalize (cg : List (String × String)) (out : List (String × Option ℚ)) :
    List (String × CoinEntry) :=
  cg.map fun p =>
    match objGet out p.2 with
    | some (some px) => (p.1, { price := some px, confidence := none })
    | _ => (p.1, { price := none, confidence := none })

/-- The `/api/prices` producer body: take the primary mapping; if every
symbol's primary price is null, replace the whole mapping by the fallback
source's mapping, otherwise return the primary mapping unchanged. -/
def pricesProducer (cg : List (String × String)) (coins : List (String × CoinEntry))
    (out : List (String × Option ℚ)) : List (String × CoinEntry) :=
  let primary := llamaNormalize cg coins
  if primary.all fun e => e.2.price.isNone then cgNormalize cg out else primary

/-- The `CG` symbol table of the `/api/prices` route (v1 free-API edition). -/
def cgSymbols : List (String × String) :=
  [("USDT", "tether"), ("USDC", "usd-coin"), ("DAI", "dai"), ("sDAI", "savings-dai")]

/-- The spec's worked scenario record: jurisdiction "NYDFS", auditor
"Grant Thornton", fiat-backed, compliance signal "yes". -/
def specScenarioSC : Stablecoin :=
  { jurisdiction := "NYDFS", auditor := "Grant Thornton", model := "fiat-backed", genius := "yes" }

/-- Split a character list on spaces (used to state that a title contains a
regulator name only inside a larger word, never as a word of its own). -/
def splitWordsGo : List Char → List Char → List (List Char)
  | acc, [] => [acc.reverse]
  | acc, c :: rest =>
    if c = ' ' then acc.reverse :: splitWordsGo [] rest
    else splitWordsGo (c :: acc) rest

/-- The space-separated words of a string. -/
def wordsOf (s : String) : List String := (splitWordsGo [] s.data).map fun l => ⟨l⟩

/-- How many of the three recognized auditor substrings occur in a record's
lower-cased auditor field.  `scoreStablecoin` adds a bonus for each hit;
`scoreBreakdown` credits only the first. -/
def auditorHits (sc : Stablecoin) : ℕ :=
  (if strHasSub (lowerStr sc.auditor) "grant thornton" then 1 else 0)
  + (if strHasSub (lowerStr sc.auditor) "withum" then 1 else 0)
  + (if strHasSub (lowerStr sc.auditor) "bdo" then 1 else 0)

/-- A record on which the two stablecoin scoring entry points disagree: its
auditor string mentions two recognized auditors at once. -/
def c1CexSC : Stablecoin := { auditor := "Withum / BDO" }

/-- `clamp10` always lands in `[1, 10]` on an exact tenth. -/
theorem clamp10_spec (q : ℚ) :
    1 ≤ clamp10 q ∧ clamp10 q ≤ 10 ∧ ∃ k : ℤ, clamp10 q = (k : ℚ) / 10 := by
  unfold clamp10 qmax qmin
  refine ⟨?_, ?_, ?_⟩
  · split_ifs with h1 h2 h3 <;> linarith
  · split_ifs with h1 h2 h3 <;> linarith
  · by_cases hx : (10 : ℚ) ≤ (jsRound (q * 10) : ℚ) / 10
    · rw [if_pos hx, if_pos (by norm_num : (1 : ℚ) ≤ 10)]
      exact ⟨100, by norm_num⟩
    · rw [if_neg hx]
      by_cases h1 : (1 : ℚ) ≤ (jsRound (q * 10) : ℚ) / 10
      · rw [if_pos h1]
        exact ⟨jsRound (q * 10), rfl⟩
      · rw [if_neg h1]
        exact ⟨10, by norm_num⟩

/-- C3: when an entry exists for the key and its age `now - t` is strictly
below the TTL, `withCache` returns the stored value, leaves the entry as it
is, and never invokes the producer (the outcome is the same whatever the
producer would do). -/
theorem withCache_fresh_hit {α ε : Type} (entry : Option (CacheEntry α)) (now ttlMs : ℤ)
    (producer : Except ε α) (e : CacheEntry α)
    (he : entry = some e) (hfresh : now - e.t < ttlMs) :
    withCache entry now ttlMs producer = ⟨.ok e.v, some e, false⟩ := by
  subst he
  simp [withCache, hfresh]

/-- Witness for C3 at a concrete fresh entry and a producer that would fail. -/
theorem withCache_fresh_hit_witness :
    withCache (some ⟨(42 : ℕ), 100⟩) 130 60 (Except.error "boom") =
      ⟨.ok 42, some ⟨42, 100⟩, false⟩ :=
  withCache_fresh_hit _ _ _ _ _ rfl (by norm_num)

/-- C4: when the entry is absent or expired and the producer fails,
`withCache` returns the prior value (without error) if a prior entry exists,
propagates the failure if none exists, and in every case with a failing
producer leaves the stored entry unchanged. -/
theorem withCache_stale_on_error {α ε : Type} (entry : Option (CacheEntry α))
    (now ttlMs : ℤ) (err : ε) :
    (∀ e : CacheEntry α, entry = some e → ¬ (now - e.t < ttlMs) →
      withCache entry now ttlMs (Except.error err) = ⟨.ok e.v, some e, true⟩)
    ∧ (entry = none →
      withCache entry now ttlMs (Except.error err) = ⟨.error err, none, true⟩)
    ∧ (withCache entry now ttlMs (Except.error err)).entry = entry := by
  refine ⟨?_, ?_, ?_⟩
  · intro e he hstale
    subst he
    simp [withCache, hstale]
  · intro he
    subst he
    simp [withCache]
  · cases entry with
    | none => simp [withCache]
    | some e =>
      by_cases h : now - e.t < ttlMs <;> simp [withCache, h]

/-- Witness for C4 at a concrete expired entry and a failing producer. -/
theorem withCache_stale_on_error_witness :
    withCache (some ⟨(7 : ℕ), 0⟩) 1000 60 (Except.error "down") =
      ⟨.ok 7, some ⟨7, 0⟩, true⟩ :=
  (withCache_stale_on_error (some ⟨(7 : ℕ), 0⟩) 1000 60 "down").1 ⟨7, 0⟩ rfl (by norm_num)

/-- C8: every scorer (`scoreStablecoin`, `scoreBreakdown`, `scorePlatform`,
`platformBreakdown`) yields a total in `[1, 10]` that is an exact multiple of
one tenth, for every record and incident count. -/
theorem scores_in_range_one_decimal (sc : Stablecoin) (d : ℕ) (p : Platform) :
    (1 ≤ scoreStablecoin sc d ∧ scoreStablecoin sc d ≤ 10 ∧
      ∃ k : ℤ, scoreStablecoin sc d = (k : ℚ) / 10)
    ∧ (1 ≤ (scoreBreakdown sc d).total ∧ (scoreBreakdown sc d).total ≤ 10 ∧
      ∃ k : ℤ, (scoreBreakdown sc d).total = (k : ℚ) / 10)
    ∧ (1 ≤ scorePlatform p ∧ scorePlatform p ≤ 10 ∧
      ∃ k : ℤ, scorePlatform p = (k : ℚ) / 10)
    ∧ (1 ≤ (platformBreakdown p).total ∧ (platformBreakdown p).total ≤ 10 ∧
      ∃ k : ℤ, (platformBreakdown p).total = (k : ℚ) / 10) :=
  ⟨clamp10_spec _, clamp10_spec _, clamp10_spec _, clamp10_spec _⟩

/-- C2 (code bug): on the seeded Coinbase record, `scorePlatform` yields 9.7
while `platformBreakdown` totals 10 — the breakdown grants a `+0.4`
proof-of-reserves bonus for a `por` containing "yes" that `scorePlatform`
does not have, so the two platform scoring entry points disagree. -/
theorem platformBreakdown_total_mismatch :
    scorePlatform coinbaseSeed = 97 / 10
    ∧ (platformBreakdown coinbaseSeed).total = 10
    ∧ scorePlatform coinbaseSeed ≠ (platformBreakdown coinbaseSeed).total := by
  have hlic : licenseTest coinbaseSeed = true := by decide
  have haud : strHasSub (lowerStr coinbaseSeed.auditor) "deloitte" = true := by decide
  have hyes : strHasSub (lowerStr coinbaseSeed.por) "yes" = true := by decide
  have hpart : strHasSub (lowerStr coinbaseSeed.por) "partial" = false := by decide
  have hrisk : strHasSub (lowerStr coinbaseSeed.riskNotes) "regulatory action" = false := by decide
  have hbase : coinbaseSeed.base = 88 / 10 := by
    norm_num [Platform.base, coinbaseSeed]
  have h1 : scorePlatform coinbaseSeed = 97 / 10 := by
    rw [scorePlatform, hlic, haud, hpart, hrisk, hbase]
    norm_num [clamp10, qmax, qmin, jsRound]
  have h2 : (platformBreakdown coinbaseSeed).total = 10 := by
    rw [platformBreakdown]
    simp only [hlic, hyes, haud, hrisk, hbase, PlatformParts.total, if_true, if_false]
    norm_num [clamp10, qmax, qmin, jsRound]
  exact ⟨h1, h2, by rw [h1, h2]; norm_num⟩

/-- The retry loop performs at most `fuel` underlying calls. -/
theorem fetchGo_calls_le {ε ρ : Type} (responses : ℕ → Except ε ρ) :
    ∀ (fuel i : ℕ) (lastErr : Option ε), (fetchGo responses i fuel lastErr).2 ≤ fuel := by
  intro fuel
  induction fuel with
  | zero => intro i lastErr; simp [fetchGo]
  | succ n ih =>
    intro i lastErr
    rw [fetchGo]
    cases h : responses i with
    | ok r => simp
    | error e =>
      simp only []
      exact Nat.succ_le_succ (ih (i + 1) (some e))

/-- If the first success is the call at offset `k`, the loop stops right
there, returning the successful response after exactly `k + 1` calls. -/
theorem fetchGo_first_success {ε ρ : Type} (responses : ℕ → Except ε ρ) :
    ∀ (fuel i k : ℕ) (r : ρ), k < fuel → responses (i + k) = .ok r →
      (∀ j, j < k → ∃ e, responses (i + j) = .error e) →
      ∀ lastErr : Option ε, fetchGo responses i fuel lastErr = (.ok r, k + 1) := by
  intro fuel
  induction fuel with
  | zero => intro i k r hk; exact absurd hk (Nat.not_lt_zero k)
  | succ n ih =>
    intro i k r hk hok hfail lastErr
    cases k with
    | zero =>
      rw [fetchGo]
      rw [Nat.add_zero] at hok
      rw [hok]
    | succ m =>
      obtain ⟨e, he⟩ := hfail 0 (Nat.succ_pos m)
      rw [Nat.add_zero] at he
      rw [fetchGo, he]
      have hrec := ih (i + 1) m r (Nat.lt_of_succ_lt_succ hk)
        (by rw [show i + 1 + m = i + (m + 1) by omega]; exact hok)
        (fun j hj => by
          obtain ⟨e', he'⟩ := hfail (j + 1) (Nat.succ_lt_succ hj)
          exact ⟨e', by rw [show i + 1 + j = i + (j + 1) by omega]; exact he'⟩)
        (some e)
      simp only [hrec]

/-- If every one of the `fuel` calls fails, the loop makes them all and then
raises the error observed on the last call. -/
theorem fetchGo_all_fail {ε ρ : Type} (responses : ℕ → Except ε ρ) :
    ∀ (fuel i : ℕ) (lastErr : Option ε), 0 < fuel →
      (∀ j, j < fuel → ∃ e, responses (i + j) = .error e) →
      ∃ e, responses (i + (fuel - 1)) = .error e ∧
        fetchGo responses i fuel lastErr = (.error (some e), fuel) := by
  intro fuel
  induction fuel with
  | zero => intro i lastErr h; exact absurd h (Nat.lt_irrefl 0)
  | succ n ih =>
    intro i lastErr _ hfail
    obtain ⟨e0, he0⟩ := hfail 0 (Nat.succ_pos n)
    rw [Nat.add_zero] at he0
    cases n with
    | zero =>
      refine ⟨e0, by simpa using he0, ?_⟩
      simp [fetchGo, he0]
    | succ m =>
      obtain ⟨e, he, hrun⟩ := ih (i + 1) (some e0) (Nat.succ_pos m)
        (fun j hj => by
          obtain ⟨e', he'⟩ := hfail (j + 1) (Nat.succ_lt_succ hj)
          exact ⟨e', by rw [show i + 1 + j = i + (j + 1) by omega]; exact he'⟩)
      refine ⟨e, ?_, ?_⟩
      · rw [show i + (m + 1 + 1 - 1) = i + 1 + (m + 1 - 1) by omega]
        exact he
      · rw [fetchGo]
        simp only [he0, hrun]

/-- C5: `fetchWithRetry` performs at most `attempts` underlying fetch calls;
if the first success is the call at index `k`, it performs exactly `k + 1`
calls and returns that response (so no call ever follows a success); and if
all `attempts` calls fail, it performs all of them and raises the error of
the last call. -/
theorem fetchWithRetry_spec {ε ρ : Type} (responses : ℕ → Except ε ρ) (attempts : ℕ) :
    (fetchWithRetry responses attempts).2 ≤ attempts
    ∧ (∀ (k : ℕ) (r : ρ), k < attempts → responses k = .ok r →
        (∀ j, j < k → ∃ e, responses j = .error e) →
        fetchWithRetry responses attempts = (.ok r, k + 1))
    ∧ (0 < attempts → (∀ j, j < attempts → ∃ e, responses j = .error e) →
        ∃ e, responses (attempts - 1) = .error e ∧
          fetchWithRetry responses attempts = (.error (some e), attempts)) := by
  refine ⟨fetchGo_calls_le responses attempts 0 none, ?_, ?_⟩
  · intro k r hk hok hfail
    exact fetchGo_first_success responses attempts 0 k r hk (by simpa using hok)
      (fun j hj => by simpa using hfail j hj) none
  · intro hpos hfail
    obtain ⟨e, he, hrun⟩ := fetchGo_all_fail responses attempts 0 none hpos
      (fun j hj => by simpa using hfail j hj)
    exact ⟨e, by simpa using he, hrun⟩

/-- Witness for C5: three attempts against an endpoint that fails once and
then succeeds stop after the second call with the successful response. -/
theorem fetchWithRetry_spec_witness :
    fetchWithRetry (fun i => if i = 1 then (Except.ok 7 : Except String ℕ) else .error "http 500") 3
      = (.ok 7, 2) :=
  (fetchWithRetry_spec (fun i => if i = 1 then (Except.ok 7 : Except String ℕ) else .error "http 500") 3).2.1
    1 7 (by norm_num) (by norm_num) (fun j hj => by
      have hj0 : j = 0 := by omega
      exact ⟨"http 500", by rw [hj0]; rfl⟩)

/-- C6: for a stablecoin row, a depeg alert is emitted iff the price is a
known number with `abs(1 - price) >= 0.015`; its severity is `"high"` iff the
deviation is at least `0.05` and `"medium"` otherwise; an unknown price never
alerts.  Concretely, price 1.06 produces a high-severity alert reporting a 6%
deviation, while price 1.00 or a null price produces nothing. -/
theorem buildAlerts_depeg_rule :
    (∀ (s : PricedCoin) (p : ℚ), s.price = some p →
      buildAlerts [s] [] =
        if jsAbs (1 - p) ≥ 15/1000 then
          [.depeg (if jsAbs (1 - p) ≥ 5/100 then "high" else "medium") s.symbol
            (s.symbol ++ " deviated " ++ toString (jsRound (jsAbs (1 - p) * 100)) ++ "% from $1")]
        else [])
    ∧ (∀ s : PricedCoin, s.price = none → buildAlerts [s] [] = [])
    ∧ buildAlerts [⟨"USDT", some (106/100)⟩] [] = [.depeg "high" "USDT" "USDT deviated 6% from $1"]
    ∧ buildAlerts [⟨"USDT", some 1⟩] [] = []
    ∧ buildAlerts [⟨"USDT", none⟩] [] = [] := by
  have hgen : ∀ (s : PricedCoin) (p : ℚ), s.price = some p →
      buildAlerts [s] [] =
        if jsAbs (1 - p) ≥ 15/1000 then
          [.depeg (if jsAbs (1 - p) ≥ 5/100 then "high" else "medium") s.symbol
            (s.symbol ++ " deviated " ++ toString (jsRound (jsAbs (1 - p) * 100)) ++ "% from $1")]
        else [] := by
    intro s p hp
    simp only [buildAlerts, List.filterMap, depegAlert, hp, List.append_nil]
    split_ifs with h <;> simp
  have hnone : ∀ s : PricedCoin, s.price = none → buildAlerts [s] [] = [] := by
    intro s hp
    simp [buildAlerts, depegAlert, hp]
  refine ⟨hgen, hnone, ?_, ?_, hnone ⟨"USDT", none⟩ rfl⟩
  · rw [hgen ⟨"USDT", some (106/100)⟩ (106/100) rfl]
    have ha : jsAbs (1 - 106/100 : ℚ) = 6/100 := by norm_num [jsAbs]
    rw [ha]
    rw [if_pos (by norm_num : (6/100 : ℚ) ≥ 15/1000)]
    rw [if_pos (by norm_num : (6/100 : ℚ) ≥ 5/100)]
    have hr : jsRound ((6/100 : ℚ) * 100) = 6 := by norm_num [jsRound]
    rw [hr]
    decide
  · rw [hgen ⟨"USDT", some 1⟩ 1 rfl]
    have ha : jsAbs (1 - 1 : ℚ) = 0 := by norm_num [jsAbs]
    rw [ha]
    rw [if_neg (by norm_num : ¬ ((0 : ℚ) ≥ 15/1000))]

/-- Witness for C6 exercising the two hypothesis-bearing conjuncts at
concrete rows. -/
theorem buildAlerts_depeg_rule_witness :
    buildAlerts [{ symbol := "FRAX", price := some (98/100) }] [] =
      [.depeg "medium" "FRAX" "FRAX deviated 2% from $1"]
    ∧ buildAlerts [{ symbol := "GHO", price := none }] [] = [] := by
  constructor
  · rw [buildAlerts_depeg_rule.1 { symbol := "FRAX", price := some (98/100) } (98/100) rfl]
    have ha : jsAbs (1 - 98/100 : ℚ) = 2/100 := by norm_num [jsAbs]
    rw [ha]
    rw [if_pos (by norm_num : (2/100 : ℚ) ≥ 15/1000)]
    rw [if_neg (by norm_num : ¬ ((2/100 : ℚ) ≥ 5/100))]
    have hr : jsRound ((2/100 : ℚ) * 100) = 2 := by norm_num [jsRound]
    rw [hr]
    decide
  · exact buildAlerts_depeg_rule.2.1 { symbol := "GHO", price := none } rfl

/-- C7: a news item produces a regulatory alert iff its lower-cased title
matches both the enforcement-vocabulary pattern and the named-regulator
pattern; when only one of the two matches, no alert is produced. -/
theorem buildAlerts_regulatory_rule (n : NewsItem) :
    (buildAlerts [] [n] =
      if enfTest (lowerStr n.title) && regulatorTest (lowerStr n.title) then
        [.regulatory "info" n.source n.title n.link]
      else [])
    ∧ (enfTest (lowerStr n.title) = true → regulatorTest (lowerStr n.title) = false →
        buildAlerts [] [n] = [])
    ∧ (regulatorTest (lowerStr n.title) = true → enfTest (lowerStr n.title) = false →
        buildAlerts [] [n] = []) := by
  have h : buildAlerts [] [n] =
      if enfTest (lowerStr n.title) && regulatorTest (lowerStr n.title) then
        [.regulatory "info" n.source n.title n.link]
      else [] := by
    simp only [buildAlerts, List.filterMap, regAlert, List.nil_append]
    split_ifs with hc <;> simp
  refine ⟨h, ?_, ?_⟩ <;> intro h1 h2 <;> rw [h] <;> simp [h1, h2]

/-- Witness for C7: a title with enforcement vocabulary but no regulator
mention produces no alert, and one with both produces the alert. -/
theorem buildAlerts_regulatory_rule_witness :
    buildAlerts [] [{ source := "BIS", title := "Settlement announced for review", link := "x" }] = []
    ∧ buildAlerts [] [{ source := "SEC", title := "SEC announces settlement with XYZ", link := "y" }]
      = [.regulatory "info" "SEC" "SEC announces settlement with XYZ" "y"] := by
  constructor
  · exact (buildAlerts_regulatory_rule
      { source := "BIS", title := "Settlement announced for review", link := "x" }).2.1
      (by decide) (by decide)
  · rw [(buildAlerts_regulatory_rule
      { source := "SEC", title := "SEC announces settlement with XYZ", link := "y" }).1]
    decide

/-- C10: the named-regulator check is an unanchored substring test, so the
title "Insecticide maker faces lawsuit" — which contains no regulator as a
word of its own, only the letter sequence "sec" inside "insecticide" — still
produces a regulatory alert. -/
theorem regulator_match_unanchored :
    buildAlerts []
      [{ source := "CertiK", title := "Insecticide maker faces lawsuit",
         link := "https://example.com/a" }]
      = [.regulatory "info" "CertiK" "Insecticide maker faces lawsuit" "https://example.com/a"]
    ∧ (wordsOf (lowerStr "Insecticide maker faces lawsuit")).all
        (fun w => !(w == "sec" || w == "cftc" || w == "doj")) = true
    ∧ strHasSub (lowerStr "Insecticide maker faces lawsuit") "attorney general" = false
    ∧ regulatorTest (lowerStr "Insecticide maker faces lawsuit") = true := by
  refine ⟨by decide, by decide, by decide, by decide⟩

/-- C9: the `/api/prices` producer is all-or-nothing — if any symbol's
primary price is non-null the whole primary mapping is returned, if every
primary price is null the whole fallback mapping is returned, and the result
is always exactly one of the two mappings (never a per-symbol mix). -/
theorem pricesProducer_all_or_nothing (cg : List (String × String))
    (coins : List (String × CoinEntry)) (out : List (String × Option ℚ)) :
    ((∃ e ∈ llamaNormalize cg coins, e.2.price ≠ none) →
      pricesProducer cg coins out = llamaNormalize cg coins)
    ∧ ((∀ e ∈ llamaNormalize cg coins, e.2.price = none) →
      pricesProducer cg coins out = cgNormalize cg out)
    ∧ (pricesProducer cg coins out = llamaNormalize cg coins ∨
      pricesProducer cg coins out = cgNormalize cg out) := by
  cases hb : (llamaNormalize cg coins).all fun e => e.2.price.isNone with
  | true =>
    have hall : ∀ e ∈ llamaNormalize cg coins, e.2.price = none := by
      intro e he
      have := List.all_eq_true.mp hb e he
      simpa [Option.isNone_iff_eq_none] using this
    refine ⟨?_, fun _ => ?_, Or.inr ?_⟩
    · rintro ⟨e, he, hne⟩
      exact absurd (hall e he) hne
    · simp [pricesProducer, hb]
    · simp [pricesProducer, hb]
  | false =>
    refine ⟨fun _ => ?_, fun hno => ?_, Or.inl ?_⟩
    · simp [pricesProducer, hb]
    · have hall : ((llamaNormalize cg coins).all fun e => e.2.price.isNone) = true :=
        List.all_eq_true.mpr fun e he => by simp [Option.isNone_iff_eq_none, hno e he]
      rw [hb] at hall
      exact absurd hall (by simp)
    · simp [pricesProducer, hb]

/-- Witness for C9: with a primary source that prices USDT, the producer
returns the primary mapping. -/
theorem pricesProducer_all_or_nothing_witness :
    pricesProducer cgSymbols [("coingecko:tether", { price := some 1, confidence := none })] []
      = llamaNormalize cgSymbols [("coingecko:tether", { price := some 1, confidence := none })] :=
  (pricesProducer_all_or_nothing cgSymbols
    [("coingecko:tether", { price := some 1, confidence := none })] []).1
    ⟨("USDT", { price := some 1, confidence := none }), by decide, by decide⟩

/-- C1 counterexample: on a record whose auditor string contains two
recognized auditor names at once ("Withum / BDO"), `scoreStablecoin` adds
both bonuses (total 6.1) while `scoreBreakdown` credits only the first
(total 5.8), so the claimed equality fails as universally stated. -/
theorem scoreBreakdown_total_ne_plain :
    (scoreBreakdown c1CexSC 0).total ≠ scoreStablecoin c1CexSC 0 := by
  have hgt : strHasSub (lowerStr c1CexSC.auditor) "grant thornton" = false := by decide
  have hw : strHasSub (lowerStr c1CexSC.auditor) "withum" = true := by decide
  have hb : strHasSub (lowerStr c1CexSC.auditor) "bdo" = true := by decide
  have hj : jurisTest c1CexSC.jurisdiction = false := by decide
  have ho : offshoreTest c1CexSC.jurisdiction = false := by decide
  have hm : ¬ (c1CexSC.model = "crypto-collateralized") := by decide
  have hg1 : ¬ (lowerStr c1CexSC.genius = "yes" ∨ lowerStr c1CexSC.genius = "likely") := by decide
  have hg2 : strHasSub (lowerStr c1CexSC.genius) "yes" = false := by decide
  have hg3 : strHasSub (lowerStr c1CexSC.genius) "likely" = false := by decide
  have h1 : scoreStablecoin c1CexSC 0 = 61/10 := by
    rw [scoreStablecoin]
    simp only [hj, hgt, hw, hb, ho, if_neg hm, if_neg hg1, Bool.false_eq_true, if_false, if_true]
    norm_num [clamp10, qmax, qmin, jsRound]
  have h2 : (scoreBreakdown c1CexSC 0).total = 58/10 := by
    rw [scoreBreakdown]
    simp only [hj, hgt, hw, hb, ho, hg2, hg3, if_neg hm, SCParts.total, Bool.false_eq_true,
      Bool.or_self, if_false, if_true]
    norm_num [clamp10, qmax, qmin, jsRound]
  rw [h1, h2]
  norm_num

/-- C1 amended: the two stablecoin scoring entry points agree on every
record whose lower-cased auditor field contains at most one of the three
recognized auditor names and whose lower-cased genius field contains
"yes"/"likely" only by being exactly "yes" or "likely" — in particular on
every record of the seeded registry. -/
theorem scoreBreakdown_total_eq_plain (sc : Stablecoin) (d : ℕ)
    (hAud : auditorHits sc ≤ 1)
    (hGen : strHasSub (lowerStr sc.genius) "yes" = true ∨
        strHasSub (lowerStr sc.genius) "likely" = true →
      lowerStr sc.genius = "yes" ∨ lowerStr sc.genius = "likely") :
    (scoreBreakdown sc d).total = scoreStablecoin sc d := by
  have hA : (if strHasSub (lowerStr sc.auditor) "grant thornton" then (1 : ℚ) else 0)
      + (if strHasSub (lowerStr sc.auditor) "withum" then 8/10 else 0)
      + (if strHasSub (lowerStr sc.auditor) "bdo" then 3/10 else 0)
      = (if strHasSub (lowerStr sc.auditor) "grant thornton" then (1 : ℚ)
        else if strHasSub (lowerStr sc.auditor) "withum" then 8/10
        else if strHasSub (lowerStr sc.auditor) "bdo" then 3/10
        else 0) := by
    unfold auditorHits at hAud
    cases hgt : strHasSub (lowerStr sc.auditor) "grant thornton" <;>
      cases hw : strHasSub (lowerStr sc.auditor) "withum" <;>
        cases hb : strHasSub (lowerStr sc.auditor) "bdo" <;>
          simp [hgt, hw, hb] at hAud ⊢
  have hG : (if strHasSub (lowerStr sc.genius) "yes" || strHasSub (lowerStr sc.genius) "likely"
        then (15/10 : ℚ) else 0)
      = (if lowerStr sc.genius = "yes" ∨ lowerStr sc.genius = "likely"
        then (15/10 : ℚ) else 0) := by
    by_cases h : lowerStr sc.genius = "yes" ∨ lowerStr sc.genius = "likely"
    · rcases h with h | h <;> rw [h] <;>
        rw [if_pos (by decide), if_pos (by simp)]
    · have h2 : ¬ (strHasSub (lowerStr sc.genius) "yes" = true ∨
          strHasSub (lowerStr sc.genius) "likely" = true) := fun hc => h (hGen hc)
      rw [not_or] at h2
      have hy : strHasSub (lowerStr sc.genius) "yes" = false := by
        simpa using h2.1
      have hl : strHasSub (lowerStr sc.genius) "likely" = false := by
        simpa using h2.2
      simp [h, hy, hl]
  simp only [scoreBreakdown, scoreStablecoin, SCParts.total]
  congr 1
  linarith [hA, hG]

/-- Witness for C1's amended statement at the seeded USDC record. -/
theorem scoreBreakdown_total_eq_plain_witness :
    (scoreBreakdown usdcSeed 0).total = scoreStablecoin usdcSeed 0 :=
  scoreBreakdown_total_eq_plain usdcSeed 0 (by decide) (by decide)

end StableLens
